import Mathlib

/-!
Verification development for the soundmirror repository (Tidal ⇄ Serato sync).

The Python sources are shallowly embedded:
  * byte strings (`bytes`) become `List Nat` of byte values,
  * Python `str` becomes `List Nat` of Unicode code points,
  * the Serato crate codec (`crate_handler.py`) is translated function by
    function, with CPython exceptions folded into `Option` results exactly
    where the source's `try/except` blocks catch them,
  * the SQLite mapping store (`db_manager.py`) becomes an association list
    keyed by local path, with the upsert's `ON CONFLICT` clause translated
    into the merge of the stored row,
  * the sync and recovery passes (`sync_engine.py`) become state-passing
    functions over that store; network and subprocess collaborators
    (Tidal search, ffprobe, tidal-dl-ng) are oracle parameters.
-/

/-- A byte value (0..255 in well-formed data). -/
abbrev Byte := Nat

/-- A byte string, as Python `bytes`. -/
abbrev Bytes := List Nat

/-- A Python `str`, as its list of Unicode code points. -/
abbrev Str := List Nat

/-- Code points of a Lean string literal (used to build concrete inputs). -/
def strOf (s : String) : Str := s.data.map Char.toNat

/-- Python `bytes.decode("ascii", errors="ignore")`: bytes below 128 survive,
all others are dropped. -/
def asciiIgnore (bs : Bytes) : Str := bs.filter (fun b => b < 128)

/-- The code points of the tag `otrk` (a crate's track-entry block). -/
def otrkStr : Str := [111, 116, 114, 107]

/-- The code points of the tag `ptrk` (the nested path block). -/
def ptrkStr : Str := [112, 116, 114, 107]

/-- The tag bytes `otrk` as written in a crate file. -/
def otrkBytes : Bytes := [111, 116, 114, 107]

/-- The tag bytes `ptrk` as written in a crate file. -/
def ptrkBytes : Bytes := [112, 116, 114, 107]

/-- Python `struct.unpack(">I", bs)`: a 4-byte big-endian unsigned integer;
`none` models the `struct.error` raised when the slice is not 4 bytes. -/
def unpackBE32 (bs : Bytes) : Option Nat :=
  match bs with
  | [b0, b1, b2, b3] => some (b0 * 16777216 + b1 * 65536 + b2 * 256 + b3)
  | _ => none

/-- Python `struct.pack(">I", n)` for `n < 2^32`. -/
def be32enc (n : Nat) : Bytes :=
  [n / 16777216 % 256, n / 65536 % 256, n / 256 % 256, n % 256]

/-- Python `s.lstrip(c)` for a single character: drop `c` from the left. -/
def lstripCp (c : Nat) (s : Str) : Str := s.dropWhile (fun x => x = c)

/-- Python `s.rstrip(c)` for a single character: drop `c` from the right. -/
def rstripCp (c : Nat) (s : Str) : Str := (lstripCp c s.reverse).reverse

/-- Python `s.strip("\x00")`: NUL code points dropped from both ends
(crate_handler.py lines 36 and 80). -/
def stripNul (s : Str) : Str := rstripCp 0 (lstripCp 0 s)

/-- Python `s.lstrip("/")` (crate path normalization). -/
def lstripSlash (s : Str) : Str := lstripCp 47 s

/-- UTF-16BE encoding of one Unicode scalar value (2 bytes below 0x10000,
otherwise a surrogate pair). -/
def utf16beEncodeChar (c : Nat) : Bytes :=
  if c < 65536 then [c / 256, c % 256]
  else
    let v := c - 65536
    let hi := 55296 + v / 1024
    let lo := 56320 + v % 1024
    [hi / 256, hi % 256, lo / 256, lo % 256]

/-- Python `s.encode("utf-16-be")` on a string of Unicode scalar values. -/
def utf16beEncode (s : Str) : Bytes := (s.map utf16beEncodeChar).flatten

/-- Pair bytes into big-endian 16-bit code units; `none` on odd length
(Python raises UnicodeDecodeError on truncated data). -/
def utf16beUnits : Bytes → Option (List Nat)
  | [] => some []
  | [_] => none
  | hi :: lo :: rest => (utf16beUnits rest).map (fun us => (hi * 256 + lo) :: us)

/-- Combine code units into code points; `none` on an unpaired surrogate
(Python raises UnicodeDecodeError). -/
def unitsDecode : List Nat → Option Str
  | [] => some []
  | u :: rest =>
    if 55296 ≤ u ∧ u < 56320 then
      match rest with
      | [] => none
      | l :: rest2 =>
        if 56320 ≤ l ∧ l < 57344 then
          (unitsDecode rest2).map
            (fun s => (65536 + (u - 55296) * 1024 + (l - 56320)) :: s)
        else none
    else if 56320 ≤ u ∧ u < 57344 then none
    else (unitsDecode rest).map (fun s => u :: s)

/-- Python `bs.decode("utf-16-be")`; `none` models UnicodeDecodeError. -/
def utf16beDecode (bs : Bytes) : Option Str := (utf16beUnits bs).bind unitsDecode

/-!
## Binary crate codec — `crate_handler.py`

`CrateHandler.get_tracks` (lines 11-45): scans length-prefixed tagged
blocks; inside each `otrk` block scans for the first `ptrk` child and
records its UTF-16BE payload with NULs stripped. The whole scan sits in one
`try/except` — any struct or decode error halts parsing and the tracks
collected so far are returned.
-/

/-- The inner `otrk` child scan of `get_tracks` (lines 28-39): `none` models
an exception escaping to the outer handler, `some none` a completed scan
with no `ptrk` child, `some (some p)` the first decoded path. -/
def scanOtrk (v : Bytes) : Option (Option Str) :=
  if hv : v = [] then some none
  else
    match unpackBE32 ((v.drop 4).take 4) with
    | none => none
    | some subLen =>
      if asciiIgnore (v.take 4) = ptrkStr then
        match utf16beDecode ((v.drop 8).take subLen) with
        | none => none
        | some s => some (some (stripNul s))
      else scanOtrk (v.drop (8 + subLen))
termination_by v.length
decreasing_by
  have hp : 0 < v.length := List.length_pos.mpr hv
  simp [List.length_drop]; omega

/-- The top-level block scan of `get_tracks` (lines 20-41). The `Bool` is
true when the scan completed without an exception; on an exception the
tracks accumulated so far are kept, as the source's `except` does. -/
def parseLoop (content : Bytes) : List Str × Bool :=
  if hv : content = [] then ([], true)
  else
    match unpackBE32 ((content.drop 4).take 4) with
    | none => ([], false)
    | some length =>
      let step : Option (List Str) :=
        if asciiIgnore (content.take 4) = otrkStr then
          match scanOtrk ((content.drop 8).take length) with
          | none => none
          | some (some p) => some [p]
          | some none => some []
        else some []
      match step with
      | none => ([], false)
      | some ps =>
        let rest := parseLoop (content.drop (8 + length))
        (ps ++ rest.1, rest.2)
termination_by content.length
decreasing_by
  have hp : 0 < content.length := List.length_pos.mpr hv
  simp [List.length_drop]; omega

/-- `CrateHandler.get_tracks`: a missing file raises FileNotFoundError
(modeled `Except.error`); an existing file of any content is parsed by
`parseLoop`, never raising to the caller. -/
def get_tracks (file : Option Bytes) : Except Unit (List Str) :=
  match file with
  | none => Except.error ()
  | some content => Except.ok (parseLoop content).1

/-!
`CrateHandler.replace_track_path` (lines 47-124): rebuilds the byte stream,
re-encoding any `ptrk` payload whose normalized path equals the normalized
old path, recomputing the enclosing `otrk` length; writes the file only
when something matched, and answers `False` leaving the file untouched on
any exception.
-/

/-- The `otrk` child rewrite loop (lines 69-102): `none` models an
exception; otherwise the rebuilt child bytes and the `otrk_modified` flag. -/
def replaceOtrk (old new : Str) (v : Bytes) : Option (Bytes × Bool) :=
  if hv : v = [] then some ([], false)
  else
    match unpackBE32 ((v.drop 4).take 4) with
    | none => none
    | some subLen =>
      let head : Option (Bytes × Bool) :=
        if asciiIgnore (v.take 4) = ptrkStr then
          match utf16beDecode ((v.drop 8).take subLen) with
          | none => none
          | some s =>
            if lstripSlash (stripNul s) = lstripSlash old then
              let newVal := utf16beEncode (lstripSlash new)
              some (v.take 4 ++ be32enc newVal.length ++ newVal, true)
            else some (v.take (8 + subLen), false)
        else some (v.take (8 + subLen), false)
      match head with
      | none => none
      | some (hb, hm) =>
        match replaceOtrk old new (v.drop (8 + subLen)) with
        | none => none
        | some (tb, tm) => some (hb ++ tb, hm || tm)
termination_by v.length
decreasing_by
  have hp : 0 < v.length := List.length_pos.mpr hv
  simp [List.length_drop]; omega

/-- The top-level rewrite loop of `replace_track_path` (lines 61-113). -/
def replaceLoop (old new : Str) (content : Bytes) : Option (Bytes × Bool) :=
  if hv : content = [] then some ([], false)
  else
    match unpackBE32 ((content.drop 4).take 4) with
    | none => none
    | some length =>
      let head : Option (Bytes × Bool) :=
        if asciiIgnore (content.take 4) = otrkStr then
          match replaceOtrk old new ((content.drop 8).take length) with
          | none => none
          | some (nv, m) =>
            if m then some (content.take 4 ++ be32enc nv.length ++ nv, true)
            else some (content.take (8 + length), false)
        else some (content.take (8 + length), false)
      match head with
      | none => none
      | some (hb, hm) =>
        match replaceLoop old new (content.drop (8 + length)) with
        | none => none
        | some (tb, tm) => some (hb ++ tb, hm || tm)
termination_by content.length
decreasing_by
  have hp : 0 < content.length := List.length_pos.mpr hv
  simp [List.length_drop]; omega

/-- `CrateHandler.replace_track_path` on an existing file: the answer flag
and the file content afterwards. The new stream is written back only when a
path matched; on no match or on any exception the file keeps its original
bytes and the answer is `false` (lines 115-124). -/
def replace_track_path (content : Bytes) (old new : Str) : Bool × Bytes :=
  match replaceLoop old new content with
  | none => (false, content)
  | some (nc, true) => (true, nc)
  | some (_, false) => (false, content)

/-- `CrateHandler.update_track_path_globally` (lines 137-149) over the list
of crate files in the Serato directory: every crate is rewritten in order
and the answer counts how many were modified. The count is a Python `int`. -/
def update_track_path_globally (crates : List Bytes) (old new : Str) :
    List Bytes × Nat :=
  match crates with
  | [] => ([], 0)
  | c :: cs =>
    let r := replace_track_path c old new
    let rest := update_track_path_globally cs old new
    (r.2 :: rest.1, (if r.1 then 1 else 0) + rest.2)

/-- The attribute names `class CrateHandler` defines (crate_handler.py
lines 5-149): the constructor, the two instance methods and the two static
methods. Looking up any other attribute on a handler raises AttributeError. -/
def crateHandlerMethods : List String :=
  ["__init__", "get_tracks", "replace_track_path", "list_all_crates",
   "update_track_path_globally"]

/-!
## Structured crates

A well-formed crate byte-stream, produced block by block: `mkBlock` is one
length-prefixed tagged block, a track entry is an `otrk` block whose payload
is a sequence of child blocks exactly one of which is the `ptrk` path block.
These definitions generate the valid inputs over which the codec theorems
quantify; the codec itself always works on the raw bytes.
-/

/-- One length-prefixed tagged block: tag, 4-byte big-endian payload length,
payload. -/
def mkBlock (tag payload : Bytes) : Bytes :=
  tag ++ be32enc payload.length ++ payload

/-- A child block of an `otrk` entry. -/
structure SubBlock where
  tag : Bytes
  payload : Bytes
deriving DecidableEq, Repr

/-- Serialization of one child block. -/
def serSub (b : SubBlock) : Bytes := mkBlock b.tag b.payload

/-- Serialization of a child block sequence. -/
def serSubs (bs : List SubBlock) : Bytes := (bs.map serSub).flatten

/-- The `ptrk` child holding a path. -/
def ptrkBlock (p : Str) : SubBlock := ⟨ptrkBytes, utf16beEncode p⟩

/-- A track entry: arbitrary non-`ptrk` children around the single `ptrk`
path block. -/
structure TrackEntry where
  pre : List SubBlock
  path : Str
  post : List SubBlock
deriving DecidableEq, Repr

/-- The child sequence of a track entry. -/
def entryChildren (e : TrackEntry) : List SubBlock :=
  e.pre ++ ptrkBlock e.path :: e.post

/-- A top-level crate block: either an unrelated block or a track entry. -/
inductive CrateItem where
  | other (tag : Bytes) (payload : Bytes)
  | track (e : TrackEntry)
deriving DecidableEq, Repr

/-- Serialization of one top-level block. -/
def serItem : CrateItem → Bytes
  | .other t p => mkBlock t p
  | .track e => mkBlock otrkBytes (serSubs (entryChildren e))

/-- Serialization of a whole crate. -/
def serCrate (items : List CrateItem) : Bytes := (items.map serItem).flatten

/-- The stored paths of a crate, in order. -/
def pathsOf (items : List CrateItem) : List Str :=
  items.filterMap fun i =>
    match i with
    | .track e => some e.path
    | .other _ _ => none

/-- A Unicode scalar value: what Python can encode to UTF-16BE. -/
def ValidChar (c : Nat) : Prop := c < 1114112 ∧ ¬ (55296 ≤ c ∧ c < 57344)

instance : DecidablePred ValidChar := fun c => by unfold ValidChar; infer_instance

/-- A string of Unicode scalar values. -/
def ValidStr (s : Str) : Prop := ∀ c ∈ s, ValidChar c

instance : DecidablePred ValidStr := fun s => by unfold ValidStr; infer_instance

/-- A path as the codec stores and reports it unchanged: scalar values only,
no leading path separator, and no NUL at either end (so the codec's
strip-NUL and strip-slash normalizations fix it). -/
def ValidPath (p : Str) : Prop :=
  ValidStr p ∧ p.head? ≠ some 0 ∧ p.head? ≠ some 47 ∧ p.getLast? ≠ some 0

instance : DecidablePred ValidPath := fun p => by unfold ValidPath; infer_instance

/-- Well-formed non-`ptrk` child: a 4-byte tag other than `ptrk`, payload
length representable in the 32-bit length field. -/
def WfSub (b : SubBlock) : Prop :=
  b.tag.length = 4 ∧ asciiIgnore b.tag ≠ ptrkStr ∧ b.payload.length < 4294967296

instance : DecidablePred WfSub := fun b => by unfold WfSub; infer_instance

/-- Well-formed track entry. -/
def WfEntry (e : TrackEntry) : Prop :=
  (∀ b ∈ e.pre, WfSub b) ∧ (∀ b ∈ e.post, WfSub b) ∧ ValidPath e.path ∧
  (utf16beEncode e.path).length < 4294967296 ∧
  (serSubs (entryChildren e)).length < 4294967296

instance : DecidablePred WfEntry := fun e => by unfold WfEntry; infer_instance

/-- Well-formed top-level block. -/
def WfItem : CrateItem → Prop
  | .other t p => t.length = 4 ∧ asciiIgnore t ≠ otrkStr ∧ p.length < 4294967296
  | .track e => WfEntry e

instance : DecidablePred WfItem := fun i => by
  unfold WfItem; cases i <;> infer_instance

/-- Well-formed crate. -/
def WfCrate (items : List CrateItem) : Prop := ∀ i ∈ items, WfItem i

instance : DecidablePred WfCrate := fun items => by unfold WfCrate; infer_instance

/-!
## Persistent mapping store — `db_manager.py`

The `track_mapping` table becomes an association list keyed by `local_path`
(the column is UNIQUE). `status` has SQL default `synced`; `last_sync` is
not modeled (no claim mentions it).
-/

/-- Status literals used by the engine. -/
def stSynced : String := "synced"

def stPendingDownload : String := "pending_download"

def stPendingCleanup : String := "pending_cleanup"

def stFailed : String := "failed"

/-- One row of `track_mapping`. -/
structure TrackRow where
  tidalId : Option String
  isrc : Option String
  bitrate : Option Nat
  displayName : Option String
  status : String
  downloadedPath : Option Str
deriving DecidableEq, Repr

/-- The mapping table: rows keyed by local path (unique key). -/
abbrev DB := List (Str × TrackRow)

/-- Row lookup by local path (the WHERE local_path = ? of the SELECTs). -/
def lookupTrack (db : DB) (path : Str) : Option TrackRow :=
  match db with
  | [] => none
  | (p, r) :: rest => if p = path then some r else lookupTrack rest path

/-- `DatabaseManager.upsert_track` (db_manager.py lines 86-100): INSERT of
(local_path, tidal_track_id, isrc, bitrate, display_name) — status takes the
column default `synced` — and ON CONFLICT(local_path) DO UPDATE SET
tidal_track_id and isrc from the excluded row, bitrate and display_name
COALESCEd with the stored values. -/
def upsert_track (db : DB) (path : Str) (tid : Option String)
    (isrc : Option String) (br : Option Nat) (dn : Option String) : DB :=
  match lookupTrack db path with
  | none =>
    db ++ [(path,
      { tidalId := tid, isrc := isrc, bitrate := br, displayName := dn,
        status := stSynced, downloadedPath := none })]
  | some _ =>
    db.map fun pr =>
      if pr.1 = path then
        (pr.1,
          { tidalId := tid
            isrc := isrc
            bitrate := match br with | some b => some b | none => pr.2.bitrate
            displayName := match dn with | some d => some d | none => pr.2.displayName
            status := pr.2.status
            downloadedPath := pr.2.downloadedPath })
      else pr

/-- `DatabaseManager.update_track_status` (lines 102-110): UPDATE status
(and downloaded_path only when the argument is truthy — `None` and the
empty string both leave it untouched). A path with no row is a no-op. -/
def update_track_status (db : DB) (path : Str) (status : String)
    (downloadedPath : Option Str) : DB :=
  db.map fun pr =>
    if pr.1 = path then
      match downloadedPath with
      | some d =>
        if d = [] then (pr.1, { pr.2 with status := status })
        else (pr.1, { pr.2 with status := status, downloadedPath := some d })
      | none => (pr.1, { pr.2 with status := status })
    else pr

/-!
## Reconciliation engine, forward pass — `sync_engine.py`, `sync_mirror`

The per-track body of the loop at lines 97-169. The external collaborators
are oracle parameters: `fsExists` is `Path.exists`, `probe` is
`extract_bitrate` (ffprobe; returns `none` or a positive bitrate), and
`search` stands for the filename-derived Tidal search with cleaned retry
(lines 124-144), keyed by the full path it is derived from.
-/

/-- External collaborators of the forward sync pass. -/
structure SyncEnv where
  fsExists : Str → Bool
  probe : Str → Option Nat
  search : Str → Option String

/-- The evolving state of one `sync_mirror` pass: the mapping store, the
`found_on_tidal` list, the orphaned list, and the log of
`update_track_status` calls the pass has issued. -/
structure SyncSt where
  db : DB
  found : List String
  orphans : List Str
  statusWrites : List (Str × String)
deriving Repr

/-- Issue `update_track_status` and log it. -/
def doUpdateStatus (st : SyncSt) (p : Str) (s : String) : SyncSt :=
  { st with db := update_track_status st.db p s none,
            statusWrites := st.statusWrites ++ [(p, s)] }

/-- Lines 108-115: if the file exists and no bitrate is cached, probe it and
persist a truthy result. Returns the store afterwards and the `bitrate`
local variable as it stands at line 118. -/
def probeStep (env : SyncEnv) (db : DB) (local_path : Str) : DB × Option Nat :=
  let db_path := lstripSlash local_path
  let info := lookupTrack db db_path
  let tidal_id := info.bind (fun r => r.tidalId)
  let bitrate := info.bind (fun r => r.bitrate)
  let full_path := if local_path.head? = some 47 then local_path else 47 :: local_path
  if env.fsExists full_path then
    match bitrate with
    | none =>
      match env.probe full_path with
      | some b =>
        if b ≠ 0 then (upsert_track db db_path tidal_id none (some b) none, some b)
        else (db, some b)
      | none => (db, none)
    | some b => (db, some b)
  else (db, bitrate)

/-- Python truthiness of the line-118 guard
`max_bitrate and bitrate and bitrate > max_bitrate`. -/
def bitrateFilterHit (maxBitrate : Option Nat) (bitrate : Option Nat) : Bool :=
  match maxBitrate, bitrate with
  | some m, some b => m ≠ 0 && b ≠ 0 && b > m
  | _, _ => false

/-- One iteration of the `for track_data in serato_tracks` loop
(lines 97-169). -/
def syncProcessTrack (env : SyncEnv) (maxBitrate : Option Nat)
    (forceUpdate : Bool) (st : SyncSt) (local_path : Str) : SyncSt :=
  let db_path := lstripSlash local_path
  let tidal_id0 := (lookupTrack st.db db_path).bind (fun r => r.tidalId)
  let full_path := if local_path.head? = some 47 then local_path else 47 :: local_path
  let pr := probeStep env st.db local_path
  let st := { st with db := pr.1 }
  let bitrate := pr.2
  if bitrateFilterHit maxBitrate bitrate then st
  else
    let searched : SyncSt × Option String :=
      match tidal_id0 with
      | none =>
        match env.search full_path with
        | some tid =>
          ({ st with db := upsert_track st.db db_path (some tid) none bitrate none },
           some tid)
        | none => ({ st with orphans := st.orphans ++ [db_path] }, none)
      | some tid => (st, some tid)
    let st := searched.1
    match searched.2 with
    | some tid =>
      let st := { st with found := st.found ++ [tid] }
      if ¬ env.fsExists full_path then doUpdateStatus st db_path stPendingDownload
      else if forceUpdate then doUpdateStatus st db_path stPendingDownload
      else doUpdateStatus st db_path stSynced
    | none => st

/-- The whole per-track loop over the parsed crate entries. -/
def syncPass (env : SyncEnv) (maxBitrate : Option Nat) (forceUpdate : Bool)
    (st : SyncSt) (serato_tracks : List Str) : SyncSt :=
  serato_tracks.foldl (syncProcessTrack env maxBitrate forceUpdate) st

/-- Line 175: `ids_to_add`, the mapped ids filtered against the playlist
track set fetched at the start of the pass. -/
def sync_ids_to_add (found : List String) (playlistIds : List String) :
    List String :=
  found.filter (fun tid => ¬ playlistIds.contains tid)

/-- `TidalManager.add_tracks_to_playlist` (tidal_manager.py lines 274-306):
the `to_add` list actually passed to `playlist.add`, after the method
re-fetches the playlist's current tracks and filters the request against
them. -/
def add_tracks_to_playlist (existingIds : List String)
    (track_ids : List String) : List String :=
  track_ids.filter (fun tid => ¬ existingIds.contains tid)

/-!
## Recovery pipeline — `sync_engine.py`, `run_recovery`

The non-placeholder branch of the per-track recovery body (lines 444-537).
The filesystem is a set of existing paths; `tidal-dl-ng`, marker extraction
and marker injection touch no modeled state. The crate rewrite reuses the
codec model above. `update_track_path_globally` returns a Python `int`
(crate_handler.py line 149), and line 512 applies `len()` to it; `pyLen`
models CPython's `len`, which raises TypeError on an `int` — the exception
lands in the generic handler at lines 535-537.
-/

/-- The filesystem as the set of existing file paths. -/
structure FSState where
  files : List Str
deriving DecidableEq, Repr

/-- `Path.exists`. -/
def fsHas (fs : FSState) (p : Str) : Bool := fs.files.contains p

/-- `Path.rename` / `shutil.move`: the file stops existing at the old path
and exists at the new one. -/
def fsRename (fs : FSState) (old new : Str) : FSState :=
  ⟨fs.files.map (fun q => if q = old then new else q)⟩

/-- The last component of a path (`Path.name`). -/
def pathName (p : Str) : Str := (p.reverse.takeWhile (fun c => c ≠ 47)).reverse

/-- The directory of a path (`Path.parent`). -/
def pathParent (p : Str) : Str := p.take (p.length - (pathName p).length - 1)

/-- `dir / name`. -/
def joinPath (d n : Str) : Str := d ++ [47] ++ n

/-- The `BACKUP-` filename marker. -/
def strBACKUP : Str := [66, 65, 67, 75, 85, 80, 45]

/-- A CPython value, as far as `len()` cares. -/
inductive PyVal where
  | int (n : Nat)
  | list (elems : List Str)
deriving DecidableEq, Repr

/-- CPython `len`: defined on sequences, raises TypeError on an `int`. -/
def pyLen : PyVal → Option Nat
  | .int _ => none
  | .list l => some l.length

/-- The state the recovery body reads and writes. -/
structure RecSt where
  fs : FSState
  db : DB
  crates : List Bytes
deriving Repr

/-- Lines 447-537, non-placeholder branch, after a downloaded file has been
identified: construct the final target (its path is passed in as computed
at lines 452-453 — same directory, original stem, downloaded suffix), back
up a pre-existing target and the original file, move the download in, run
the global crate rewrite, then update the mapping — unless an exception
jumps to the handler at lines 535-537, which marks the original path
`failed`. Marker extraction/injection (lines 456, 474-479) and the prints
touch no modeled state. -/
def recoveryStep (st : RecSt) (tidal_id : String)
    (originalPath downloadedFile finalTarget : Str) : RecSt :=
  let targetDir := pathParent originalPath
  -- lines 459-462: back up a pre-existing file at the final target path
  let fs1 :=
    if fsHas st.fs finalTarget then
      fsRename st.fs finalTarget (joinPath targetDir (strBACKUP ++ pathName finalTarget))
    else st.fs
  -- lines 464-468: back up the original file, marking an upgrade
  let backupOriginal := joinPath targetDir (strBACKUP ++ pathName originalPath)
  let isUpgrade := fsHas fs1 originalPath && originalPath ≠ finalTarget
  let fs2 := if isUpgrade then fsRename fs1 originalPath backupOriginal else fs1
  -- line 471: move the downloaded file into place
  let fs3 := fsRename fs2 downloadedFile finalTarget
  -- lines 506-514: global crate rewrite, then `len()` of its int result
  let rewritten :=
    if originalPath ≠ finalTarget then
      let r := update_track_path_globally st.crates originalPath finalTarget
      (r.1, pyLen (PyVal.int r.2))
    else (st.crates, some 0)
  match rewritten.2 with
  | none =>
    -- TypeError at line 512 → handler at lines 535-537
    ⟨fs3, update_track_status st.db (lstripSlash originalPath) stFailed none,
      rewritten.1⟩
  | some _ =>
    -- lines 516-523
    if isUpgrade then
      let db1 := update_track_status st.db (lstripSlash originalPath)
        stPendingCleanup (some backupOriginal)
      let db2 := upsert_track db1 (lstripSlash finalTarget) (some tidal_id)
        none none none
      let db3 := update_track_status db2 (lstripSlash finalTarget) stSynced
        (some finalTarget)
      ⟨fs3, db3, rewritten.1⟩
    else
      ⟨fs3, update_track_status st.db (lstripSlash originalPath) stSynced
        (some finalTarget), rewritten.1⟩

/-!
## Metadata transplant — `metadata_handler.py`

The ID3 (MP3) container path of the marker round trip. The file's tag set
is modeled as its list of GEOB frames — the frames the Serato-marker
branches of `extract_serato_markers` (lines 25-33) and
`inject_serato_markers` (lines 210-220) read and write; the scalar-tag
branches write non-GEOB frames and do not interact with these. mutagen is
assumed to persist frames faithfully: a GEOB frame carries its descriptor
and its binary payload, and `tags.add` replaces the frame with the same
descriptor.
-/

/-- UTF-8 encoding of one Unicode scalar value. -/
def utf8EncodeChar (c : Nat) : Bytes :=
  if c < 128 then [c]
  else if c < 2048 then [192 + c / 64, 128 + c % 64]
  else if c < 65536 then [224 + c / 4096, 128 + c / 64 % 64, 128 + c % 64]
  else [240 + c / 262144, 128 + c / 4096 % 64, 128 + c / 64 % 64, 128 + c % 64]

/-- Python `s.encode("utf-8")`. -/
def utf8Encode (s : Str) : Bytes := (s.map utf8EncodeChar).flatten

/-- Python `s.replace("\x00", "")`. -/
def removeNuls (s : Str) : Str := s.filter (fun c => c ≠ 0)

/-- ASCII lowercase of one code point (`str.lower` on ASCII). -/
def lowerCp (c : Nat) : Nat := if 65 ≤ c ∧ c ≤ 90 then c + 32 else c

/-- ASCII uppercase of one code point. -/
def upperCp (c : Nat) : Nat := if 97 ≤ c ∧ c ≤ 122 then c - 32 else c

/-- Python `s.lower()` (ASCII range; the descriptors involved are ASCII). -/
def lowerStr (s : Str) : Str := s.map lowerCp

/-- A cased (ASCII letter) code point, as `str.title` treats it. -/
def isCased (c : Nat) : Bool := (65 ≤ c && c ≤ 90) || (97 ≤ c && c ≤ 122)

/-- Python `s.title()`: a cased character after a non-cased one is
uppercased, later cased characters are lowercased. -/
def titlePy (s : Str) : Str := go false s
where
  go (prevCased : Bool) : Str → Str
    | [] => []
    | c :: rest =>
      (if isCased c then (if prevCased then lowerCp c else upperCp c) else c)
        :: go (isCased c) rest

/-- Python `a.replace(old, new)` for single characters. -/
def replaceCp (a b : Nat) (s : Str) : Str := s.map (fun c => if c = a then b else c)

/-- Python `needle in hay` on strings. -/
def strContains (hay needle : Str) : Bool :=
  needle.isPrefixOf hay ||
    (match hay with
     | [] => false
     | _ :: t => strContains t needle)

/-- One GEOB frame of an ID3 tag set: descriptor and binary payload. -/
structure GeobFrame where
  desc : Str
  data : Bytes
deriving DecidableEq, Repr

/-- Python dict assignment `d[k] = v` on an insertion-ordered mapping. -/
def dictInsert (d : List (Str × Bytes)) (k : Str) (v : Bytes) :
    List (Str × Bytes) :=
  if d.any (fun kv => kv.1 = k) then
    d.map (fun kv => if kv.1 = k then (k, v) else kv)
  else d ++ [(k, v)]

/-- Mapping lookup. -/
def dictGet (d : List (Str × Bytes)) (k : Str) : Option Bytes :=
  match d with
  | [] => none
  | kv :: rest => if kv.1 = k then some kv.2 else dictGet rest k

/-- The GEOB wrapper header built at extraction (line 31):
`b"application/octet-stream\x00\x00" + clean_desc.encode("utf-8") + b"\x00"`. -/
def wrapperBytes (cleanDesc : Str) : Bytes :=
  strOf "application/octet-stream" ++ [0, 0] ++ utf8Encode cleanDesc ++ [0]

/-- `MetadataCloner.extract_serato_markers`, ID3 branch, Serato GEOB frames
(lines 25-33): each GEOB frame whose descriptor starts with `Serato` is
recorded under its NUL-free descriptor, its value the wrapper header
prepended to the frame's payload. -/
def extract_serato_markers_id3 (frames : List GeobFrame) : List (Str × Bytes) :=
  frames.foldl
    (fun acc f =>
      if (strOf "Serato").isPrefixOf f.desc then
        let cleanDesc := removeNuls f.desc
        dictInsert acc cleanDesc (wrapperBytes cleanDesc ++ f.data)
      else acc)
    []

/-- The descriptor rewrite of the inject ID3 branch (lines 211-213); the
final `.replace("Serato ", "Serato ")` is an identity and is omitted. -/
def injectOutDesc (desc : Str) : Str :=
  if (strOf "serato_").isPrefixOf (lowerStr desc) then
    titlePy (replaceCp 95 32 desc)
  else desc

/-- mutagen `tags.add` on a GEOB frame: replaces the frame with the same
descriptor, else appends. -/
def addGeob (frames : List GeobFrame) (g : GeobFrame) : List GeobFrame :=
  if frames.any (fun f => f.desc = g.desc) then
    frames.map (fun f => if f.desc = g.desc then g else f)
  else frames ++ [g]

/-- `MetadataCloner.inject_serato_markers`, ID3 branch, proprietary-marker
case (lines 210-220): each marker whose lowercased name contains `serato`
is written as a GEOB frame with the marker's bytes as the frame payload. -/
def inject_serato_markers_id3 (markers : List (Str × Bytes))
    (frames : List GeobFrame) : List GeobFrame :=
  markers.foldl
    (fun fs kv =>
      if strContains (lowerStr kv.1) (strOf "serato") then
        addGeob fs ⟨injectOutDesc kv.1, kv.2⟩
      else fs)
    frames

/-!
## Lemmas: block arithmetic
-/

theorem be32enc_length (n : Nat) : (be32enc n).length = 4 := rfl

theorem unpackBE32_be32enc (n : Nat) (h : n < 4294967296) :
    unpackBE32 (be32enc n) = some n := by
  simp only [be32enc, unpackBE32]
  congr 1
  omega

theorem mkBlock_length (t p : Bytes) (ht : t.length = 4) :
    (mkBlock t p).length = 8 + p.length := by
  simp [mkBlock, ht, be32enc_length]; omega

theorem mkBlock_append_ne_nil (t p rest : Bytes) (ht : t.length = 4) :
    mkBlock t p ++ rest ≠ [] := by
  intro h
  have : (mkBlock t p ++ rest).length = 0 := by rw [h]; rfl
  rw [List.length_append, mkBlock_length t p ht] at this
  omega

theorem mkBlock_append_take4 (t p rest : Bytes) (ht : t.length = 4) :
    (mkBlock t p ++ rest).take 4 = t := by
  have : mkBlock t p ++ rest = t ++ (be32enc p.length ++ p ++ rest) := by
    simp [mkBlock]
  rw [this, List.take_left' ht]

theorem mkBlock_append_len (t p rest : Bytes) (ht : t.length = 4) :
    ((mkBlock t p ++ rest).drop 4).take 4 = be32enc p.length := by
  have h1 : mkBlock t p ++ rest = t ++ (be32enc p.length ++ (p ++ rest)) := by
    simp [mkBlock]
  rw [h1, List.drop_left' ht, List.take_left' (be32enc_length p.length)]

theorem mkBlock_append_payload (t p rest : Bytes) (ht : t.length = 4) :
    ((mkBlock t p ++ rest).drop 8).take p.length = p := by
  have h1 : mkBlock t p ++ rest = (t ++ be32enc p.length) ++ (p ++ rest) := by
    simp [mkBlock]
  have h2 : (t ++ be32enc p.length).length = 8 := by
    rw [List.length_append, ht, be32enc_length]
  rw [h1, List.drop_left' h2, List.take_left' rfl]

theorem mkBlock_append_rest (t p rest : Bytes) (ht : t.length = 4) :
    (mkBlock t p ++ rest).drop (8 + p.length) = rest := by
  have h1 : mkBlock t p ++ rest = ((t ++ be32enc p.length) ++ p) ++ rest := by
    simp [mkBlock]
  have h2 : ((t ++ be32enc p.length) ++ p).length = 8 + p.length := by
    simp [List.length_append, ht, be32enc_length]; omega
  rw [h1, List.drop_left' h2]

theorem mkBlock_append_takeAll (t p rest : Bytes) (ht : t.length = 4) :
    (mkBlock t p ++ rest).take (8 + p.length) = mkBlock t p := by
  exact List.take_left' (mkBlock_length t p ht)

theorem serSubs_cons (b : SubBlock) (bs : List SubBlock) :
    serSubs (b :: bs) = serSub b ++ serSubs bs := by
  simp [serSubs]

theorem serCrate_cons (i : CrateItem) (is : List CrateItem) :
    serCrate (i :: is) = serItem i ++ serCrate is := by
  simp [serCrate]

/-!
## Lemmas: UTF-16BE round trip and normalization
-/

/-- The 16-bit code units of one scalar value. -/
def unitsOfChar (c : Nat) : List Nat :=
  if c < 65536 then [c]
  else [55296 + (c - 65536) / 1024, 56320 + (c - 65536) % 1024]

/-- The 16-bit code units of a string. -/
def unitsOf (s : Str) : List Nat := (s.map unitsOfChar).flatten

theorem utf16beUnits_append_two (a b : Nat) (bs : Bytes) :
    utf16beUnits (a :: b :: bs) =
      (utf16beUnits bs).map (fun us => (a * 256 + b) :: us) := rfl

theorem utf16beUnits_encode (s : Str) (h : ValidStr s) :
    utf16beUnits (utf16beEncode s) = some (unitsOf s) := by
  induction s with
  | nil => rfl
  | cons c rest ih =>
    have hc : ValidChar c := h c (by simp)
    have hrest : ValidStr rest := fun x hx => h x (by simp [hx])
    have ihr := ih hrest
    have henc : utf16beEncode (c :: rest) = utf16beEncodeChar c ++ utf16beEncode rest := by
      simp [utf16beEncode]
    by_cases hlt : c < 65536
    · have hch : utf16beEncodeChar c = [c / 256, c % 256] := by
        simp [utf16beEncodeChar, hlt]
      have huc : unitsOfChar c = [c] := by simp [unitsOfChar, hlt]
      rw [henc, hch]
      have hcc : (c / 256) * 256 + c % 256 = c := by omega
      simp only [List.cons_append, List.nil_append, utf16beUnits_append_two, ihr,
        Option.map_some, hcc]
      simp [unitsOf, huc]
    · have hch : utf16beEncodeChar c =
          [(55296 + (c - 65536) / 1024) / 256, (55296 + (c - 65536) / 1024) % 256,
           (56320 + (c - 65536) % 1024) / 256, (56320 + (c - 65536) % 1024) % 256] := by
        simp [utf16beEncodeChar, hlt]
      have huc : unitsOfChar c =
          [55296 + (c - 65536) / 1024, 56320 + (c - 65536) % 1024] := by
        simp [unitsOfChar, hlt]
      rw [henc, hch]
      have h1 : (55296 + (c - 65536) / 1024) / 256 * 256 +
          (55296 + (c - 65536) / 1024) % 256 = 55296 + (c - 65536) / 1024 := by omega
      have h2 : (56320 + (c - 65536) % 1024) / 256 * 256 +
          (56320 + (c - 65536) % 1024) % 256 = 56320 + (c - 65536) % 1024 := by omega
      simp only [List.cons_append, List.nil_append, utf16beUnits_append_two, ihr,
        Option.map_some, h1, h2]
      simp [unitsOf, huc]

theorem unitsDecode_cons_bmp (u : Nat) (rest : List Nat)
    (h1 : ¬ (55296 ≤ u ∧ u < 56320)) (h2 : ¬ (56320 ≤ u ∧ u < 57344)) :
    unitsDecode (u :: rest) = (unitsDecode rest).map (fun s => u :: s) := by
  rw [unitsDecode.eq_def]
  simp only [h1, if_false, h2]

theorem unitsDecode_cons_pair (u l : Nat) (rest : List Nat)
    (h1 : 55296 ≤ u ∧ u < 56320) (h2 : 56320 ≤ l ∧ l < 57344) :
    unitsDecode (u :: l :: rest) =
      (unitsDecode rest).map
        (fun s => (65536 + (u - 55296) * 1024 + (l - 56320)) :: s) := by
  rw [unitsDecode.eq_def]
  simp [h1, h2]

theorem unitsDecode_unitsOf (s : Str) (h : ValidStr s) :
    unitsDecode (unitsOf s) = some s := by
  induction s with
  | nil => rfl
  | cons c rest ih =>
    have hc : ValidChar c := h c (by simp)
    have hrest : ValidStr rest := fun x hx => h x (by simp [hx])
    have ihr := ih hrest
    have hsplit : unitsOf (c :: rest) = unitsOfChar c ++ unitsOf rest := by
      simp [unitsOf]
    by_cases hlt : c < 65536
    · have huc : unitsOfChar c = [c] := by simp [unitsOfChar, hlt]
      rw [hsplit, huc]
      have hns : ¬ (55296 ≤ c ∧ c < 56320) := by
        rcases hc with ⟨_, hnr⟩; omega
      have hns2 : ¬ (56320 ≤ c ∧ c < 57344) := by
        rcases hc with ⟨_, hnr⟩; omega
      simp only [List.cons_append, List.nil_append]
      rw [unitsDecode_cons_bmp c _ hns hns2, ihr]
      rfl
    · have huc : unitsOfChar c =
          [55296 + (c - 65536) / 1024, 56320 + (c - 65536) % 1024] := by
        simp [unitsOfChar, hlt]
      rw [hsplit, huc]
      have hcb : c < 1114112 := hc.1
      have hhr : 55296 ≤ 55296 + (c - 65536) / 1024 ∧
          55296 + (c - 65536) / 1024 < 56320 := by omega
      have hlr : 56320 ≤ 56320 + (c - 65536) % 1024 ∧
          56320 + (c - 65536) % 1024 < 57344 := by omega
      simp only [List.cons_append, List.nil_append]
      rw [unitsDecode_cons_pair _ _ _ hhr hlr, ihr]
      have hx : 65536 + (55296 + (c - 65536) / 1024 - 55296) * 1024 +
          (56320 + (c - 65536) % 1024 - 56320) = c := by omega
      rw [hx]
      rfl

theorem utf16_roundtrip (s : Str) (h : ValidStr s) :
    utf16beDecode (utf16beEncode s) = some s := by
  rw [utf16beDecode, utf16beUnits_encode s h]
  exact unitsDecode_unitsOf s h

theorem dropWhile_eq_self_of_head {p : Nat → Bool} {l : Str}
    (h : ∀ x, l.head? = some x → p x = false) : l.dropWhile p = l := by
  cases l with
  | nil => rfl
  | cons a t =>
    have := h a rfl
    simp [List.dropWhile, this]

theorem stripNul_of_validPath (s : Str) (h : ValidPath s) : stripNul s = s := by
  rcases h with ⟨_, h0, _, hl⟩
  have hfront : lstripCp 0 s = s := by
    apply dropWhile_eq_self_of_head
    intro x hx
    simp only [decide_eq_false_iff_not]
    intro hx0
    exact h0 (hx0 ▸ hx)
  have hback : rstripCp 0 s = s := by
    unfold rstripCp
    have hrev : lstripCp 0 s.reverse = s.reverse := by
      apply dropWhile_eq_self_of_head
      intro x hx
      simp only [decide_eq_false_iff_not]
      intro hx0
      rw [← List.getLast?_eq_head?_reverse] at hx
      exact hl (hx0 ▸ hx)
    rw [hrev, List.reverse_reverse]
  unfold stripNul
  rw [hfront, hback]

theorem lstripSlash_of_validPath (s : Str) (h : ValidPath s) : lstripSlash s = s := by
  rcases h with ⟨_, _, h47, _⟩
  apply dropWhile_eq_self_of_head
  intro x hx
  simp only [decide_eq_false_iff_not]
  intro hx47
  exact h47 (hx47 ▸ hx)

/-!
## Lemmas: the parse scan over well-formed blocks
-/

theorem scanOtrk_skip (t p rest : Bytes) (ht : t.length = 4)
    (hp : p.length < 4294967296) (hne : asciiIgnore t ≠ ptrkStr) :
    scanOtrk (mkBlock t p ++ rest) = scanOtrk rest := by
  rw [scanOtrk]
  rw [dif_neg (mkBlock_append_ne_nil t p rest ht)]
  rw [mkBlock_append_len t p rest ht, unpackBE32_be32enc p.length hp]
  rw [mkBlock_append_take4 t p rest ht]
  simp only [hne, if_false]
  rw [mkBlock_append_rest t p rest ht]

theorem scanOtrk_hit (q : Str) (rest : Bytes) (hq : ValidStr q)
    (hlen : (utf16beEncode q).length < 4294967296) :
    scanOtrk (mkBlock ptrkBytes (utf16beEncode q) ++ rest) =
      some (some (stripNul q)) := by
  rw [scanOtrk]
  rw [dif_neg (mkBlock_append_ne_nil ptrkBytes (utf16beEncode q) rest rfl)]
  rw [mkBlock_append_len ptrkBytes (utf16beEncode q) rest rfl,
    unpackBE32_be32enc (utf16beEncode q).length hlen]
  rw [mkBlock_append_take4 ptrkBytes (utf16beEncode q) rest rfl]
  have hpt : asciiIgnore ptrkBytes = ptrkStr := by decide
  simp only [hpt, if_true]
  rw [mkBlock_append_payload ptrkBytes (utf16beEncode q) rest rfl]
  rw [utf16_roundtrip q hq]

theorem scanOtrk_serSubs_skip (pre : List SubBlock) (tailv : Bytes)
    (hpre : ∀ b ∈ pre, WfSub b) :
    scanOtrk (serSubs pre ++ tailv) = scanOtrk tailv := by
  induction pre with
  | nil => simp [serSubs]
  | cons b bs ih =>
    have hb := hpre b (by simp)
    have hbs : ∀ x ∈ bs, WfSub x := fun x hx => hpre x (by simp [hx])
    rw [serSubs_cons, List.append_assoc, serSub,
      scanOtrk_skip b.tag b.payload _ hb.1 hb.2.2 hb.2.1, ih hbs]

theorem scanOtrk_entry (e : TrackEntry) (he : WfEntry e) :
    scanOtrk (serSubs (entryChildren e)) = some (some e.path) := by
  rcases he with ⟨hpre, _, hvp, hlen, _⟩
  have h1 : serSubs (entryChildren e) =
      serSubs e.pre ++ (mkBlock ptrkBytes (utf16beEncode e.path) ++ serSubs e.post) := by
    unfold entryChildren
    rw [show e.pre ++ ptrkBlock e.path :: e.post =
      e.pre ++ ([ptrkBlock e.path] ++ e.post) from by simp]
    rw [show serSubs (e.pre ++ ([ptrkBlock e.path] ++ e.post)) =
      serSubs e.pre ++ serSubs ([ptrkBlock e.path] ++ e.post) from by
        simp [serSubs]]
    rw [show serSubs ([ptrkBlock e.path] ++ e.post) =
      serSub (ptrkBlock e.path) ++ serSubs e.post from by simp [serSubs]]
    rfl
  rw [h1, scanOtrk_serSubs_skip e.pre _ hpre,
    scanOtrk_hit e.path (serSubs e.post) hvp.1 hlen,
    stripNul_of_validPath e.path hvp]

theorem parseLoop_other (t p rest : Bytes) (ht : t.length = 4)
    (hp : p.length < 4294967296) (hne : asciiIgnore t ≠ otrkStr) :
    parseLoop (mkBlock t p ++ rest) = parseLoop rest := by
  rw [parseLoop]
  rw [dif_neg (mkBlock_append_ne_nil t p rest ht)]
  rw [mkBlock_append_len t p rest ht, unpackBE32_be32enc p.length hp]
  rw [mkBlock_append_take4 t p rest ht]
  simp only [hne, if_false]
  rw [mkBlock_append_rest t p rest ht]
  simp

theorem parseLoop_track (e : TrackEntry) (rest : Bytes) (he : WfEntry e) :
    parseLoop (serItem (.track e) ++ rest) =
      (e.path :: (parseLoop rest).1, (parseLoop rest).2) := by
  have hlen : (serSubs (entryChildren e)).length < 4294967296 := he.2.2.2.2
  rw [serItem, parseLoop]
  rw [dif_neg (mkBlock_append_ne_nil otrkBytes (serSubs (entryChildren e)) rest rfl)]
  rw [mkBlock_append_len otrkBytes (serSubs (entryChildren e)) rest rfl,
    unpackBE32_be32enc (serSubs (entryChildren e)).length hlen]
  rw [mkBlock_append_take4 otrkBytes (serSubs (entryChildren e)) rest rfl]
  have hot : asciiIgnore otrkBytes = otrkStr := by decide
  simp only [hot, if_true]
  rw [mkBlock_append_payload otrkBytes (serSubs (entryChildren e)) rest rfl]
  rw [scanOtrk_entry e he]
  rw [mkBlock_append_rest otrkBytes (serSubs (entryChildren e)) rest rfl]
  rfl

/-- Graceful-degradation law of the crate parser: a well-formed prefix is
parsed in order, whatever bytes follow. -/
theorem parseLoop_serCrate_append (items : List CrateItem) (tailB : Bytes)
    (h : WfCrate items) :
    parseLoop (serCrate items ++ tailB) =
      (pathsOf items ++ (parseLoop tailB).1, (parseLoop tailB).2) := by
  induction items with
  | nil => simp [serCrate, pathsOf]
  | cons i is ih =>
    have hi : WfItem i := h i (by simp)
    have his : WfCrate is := fun x hx => h x (by simp [hx])
    rw [serCrate_cons, List.append_assoc]
    cases i with
    | other t p =>
      rw [show serItem (.other t p) = mkBlock t p from rfl]
      rw [parseLoop_other t p _ hi.1 hi.2.2 hi.2.1, ih his]
      simp [pathsOf]
    | track e =>
      rw [parseLoop_track e _ hi, ih his]
      simp [pathsOf]

theorem parseLoop_nil : parseLoop [] = ([], true) := by
  rw [parseLoop]
  simp

theorem parseLoop_serCrate (items : List CrateItem) (h : WfCrate items) :
    parseLoop (serCrate items) = (pathsOf items, true) := by
  have h2 := parseLoop_serCrate_append items [] h
  rw [List.append_nil, parseLoop_nil] at h2
  simpa using h2

/-!
## Lemmas: the path rewrite over well-formed blocks
-/

/-- The source's match condition at crate_handler.py line 86, on a stored
path the codec reports unchanged. -/
def entryMatches (old : Str) (e : TrackEntry) : Bool :=
  lstripSlash e.path = lstripSlash old

/-- The specification-level effect of `replace_track_path` on one entry. -/
def replaceEntry (old new : Str) (e : TrackEntry) : TrackEntry :=
  if lstripSlash e.path = lstripSlash old then ⟨e.pre, lstripSlash new, e.post⟩
  else e

/-- The specification-level effect on one top-level block. -/
def replaceItemSpec (old new : Str) : CrateItem → CrateItem
  | .track e => .track (replaceEntry old new e)
  | .other t p => .other t p

/-- Whether a top-level block holds a matching entry. -/
def itemMatches (old : Str) : CrateItem → Bool
  | .track e => entryMatches old e
  | .other _ _ => false

/-- Whether any entry of the crate matches. -/
def crateMatches (old : Str) (items : List CrateItem) : Bool :=
  items.any (itemMatches old)

theorem replaceOtrk_nil (old new : Str) : replaceOtrk old new [] = some ([], false) := by
  rw [replaceOtrk]
  simp

theorem replaceLoop_nil (old new : Str) : replaceLoop old new [] = some ([], false) := by
  rw [replaceLoop]
  simp

theorem replaceOtrk_skip (old new : Str) (t p rest : Bytes) (ht : t.length = 4)
    (hp : p.length < 4294967296) (hne : asciiIgnore t ≠ ptrkStr) :
    replaceOtrk old new (mkBlock t p ++ rest) =
      (replaceOtrk old new rest).map (fun r => (mkBlock t p ++ r.1, r.2)) := by
  rw [replaceOtrk]
  rw [dif_neg (mkBlock_append_ne_nil t p rest ht)]
  rw [mkBlock_append_len t p rest ht, unpackBE32_be32enc p.length hp]
  rw [mkBlock_append_take4 t p rest ht]
  simp only [hne, if_false]
  rw [mkBlock_append_takeAll t p rest ht, mkBlock_append_rest t p rest ht]
  cases replaceOtrk old new rest with
  | none => rfl
  | some r => cases r; rfl

theorem replaceOtrk_ptrk_match (old new : Str) (q : Str) (rest : Bytes)
    (hq : ValidPath q) (hlen : (utf16beEncode q).length < 4294967296)
    (hm : lstripSlash q = lstripSlash old) :
    replaceOtrk old new (mkBlock ptrkBytes (utf16beEncode q) ++ rest) =
      (replaceOtrk old new rest).map
        (fun r => (serSub (ptrkBlock (lstripSlash new)) ++ r.1, true)) := by
  rw [replaceOtrk]
  rw [dif_neg (mkBlock_append_ne_nil ptrkBytes (utf16beEncode q) rest rfl)]
  rw [mkBlock_append_len ptrkBytes (utf16beEncode q) rest rfl,
    unpackBE32_be32enc (utf16beEncode q).length hlen]
  rw [mkBlock_append_take4 ptrkBytes (utf16beEncode q) rest rfl]
  have hpt : asciiIgnore ptrkBytes = ptrkStr := by decide
  simp only [hpt, if_true]
  rw [mkBlock_append_payload ptrkBytes (utf16beEncode q) rest rfl]
  rw [mkBlock_append_rest ptrkBytes (utf16beEncode q) rest rfl]
  rw [utf16_roundtrip q hq.1]
  have hs : stripNul q = q := stripNul_of_validPath q hq
  simp only [hs, hm, eq_self_iff_true, if_true]
  cases replaceOtrk old new rest with
  | none => rfl
  | some r => cases r; rfl

theorem replaceOtrk_ptrk_nomatch (old new : Str) (q : Str) (rest : Bytes)
    (hq : ValidPath q) (hlen : (utf16beEncode q).length < 4294967296)
    (hm : lstripSlash q ≠ lstripSlash old) :
    replaceOtrk old new (mkBlock ptrkBytes (utf16beEncode q) ++ rest) =
      (replaceOtrk old new rest).map
        (fun r => (mkBlock ptrkBytes (utf16beEncode q) ++ r.1, r.2)) := by
  rw [replaceOtrk]
  rw [dif_neg (mkBlock_append_ne_nil ptrkBytes (utf16beEncode q) rest rfl)]
  rw [mkBlock_append_len ptrkBytes (utf16beEncode q) rest rfl,
    unpackBE32_be32enc (utf16beEncode q).length hlen]
  rw [mkBlock_append_take4 ptrkBytes (utf16beEncode q) rest rfl]
  have hpt : asciiIgnore ptrkBytes = ptrkStr := by decide
  simp only [hpt, if_true]
  rw [mkBlock_append_payload ptrkBytes (utf16beEncode q) rest rfl]
  rw [mkBlock_append_takeAll ptrkBytes (utf16beEncode q) rest rfl,
    mkBlock_append_rest ptrkBytes (utf16beEncode q) rest rfl]
  rw [utf16_roundtrip q hq.1]
  have hs : stripNul q = q := stripNul_of_validPath q hq
  simp only [hs, hm, if_false]
  cases replaceOtrk old new rest with
  | none => rfl
  | some r => cases r; rfl

theorem replaceOtrk_serSubs_skip (old new : Str) (pre : List SubBlock)
    (tailv : Bytes) (hpre : ∀ b ∈ pre, WfSub b) :
    replaceOtrk old new (serSubs pre ++ tailv) =
      (replaceOtrk old new tailv).map (fun r => (serSubs pre ++ r.1, r.2)) := by
  induction pre with
  | nil =>
    simp only [serSubs, List.map_nil, List.flatten_nil, List.nil_append]
    cases replaceOtrk old new tailv with
    | none => rfl
    | some r => cases r; rfl
  | cons b bs ih =>
    have hb := hpre b (by simp)
    have hbs : ∀ x ∈ bs, WfSub x := fun x hx => hpre x (by simp [hx])
    rw [serSubs_cons, List.append_assoc, serSub,
      replaceOtrk_skip old new b.tag b.payload _ hb.1 hb.2.2 hb.2.1, ih hbs]
    cases replaceOtrk old new tailv with
    | none => rfl
    | some r => cases r; simp [serSub]

theorem replaceOtrk_serSubs (old new : Str) (e : TrackEntry) (he : WfEntry e) :
    replaceOtrk old new (serSubs (entryChildren e)) =
      some (serSubs (entryChildren (replaceEntry old new e)), entryMatches old e) := by
  have hpre := he.1
  have hpost := he.2.1
  have hvp := he.2.2.1
  have hlen := he.2.2.2.1
  have hch : serSubs (entryChildren e) =
      serSubs e.pre ++ (mkBlock ptrkBytes (utf16beEncode e.path) ++ serSubs e.post) := by
    unfold entryChildren
    rw [show e.pre ++ ptrkBlock e.path :: e.post =
      e.pre ++ ([ptrkBlock e.path] ++ e.post) from by simp]
    rw [show serSubs (e.pre ++ ([ptrkBlock e.path] ++ e.post)) =
      serSubs e.pre ++ (serSubs [ptrkBlock e.path] ++ serSubs e.post) from by
        simp [serSubs]]
    simp [serSubs, serSub, ptrkBlock]
  have hpost_eq : replaceOtrk old new (serSubs e.post) =
      some (serSubs e.post, false) := by
    have h0 := replaceOtrk_serSubs_skip old new e.post [] hpost
    rw [List.append_nil, replaceOtrk_nil] at h0
    simpa using h0
  rw [hch, replaceOtrk_serSubs_skip old new e.pre _ hpre]
  by_cases hm : lstripSlash e.path = lstripSlash old
  · rw [replaceOtrk_ptrk_match old new e.path _ hvp hlen hm, hpost_eq]
    simp [replaceEntry, entryMatches, hm, entryChildren, serSubs, serSub,
      ptrkBlock, mkBlock]
  · rw [replaceOtrk_ptrk_nomatch old new e.path _ hvp hlen hm, hpost_eq]
    simp [replaceEntry, entryMatches, hm, entryChildren, serSubs, serSub,
      ptrkBlock, mkBlock]

theorem replaceLoop_other (old new : Str) (t p rest : Bytes) (ht : t.length = 4)
    (hp : p.length < 4294967296) (hne : asciiIgnore t ≠ otrkStr) :
    replaceLoop old new (mkBlock t p ++ rest) =
      (replaceLoop old new rest).map (fun r => (mkBlock t p ++ r.1, r.2)) := by
  rw [replaceLoop]
  rw [dif_neg (mkBlock_append_ne_nil t p rest ht)]
  rw [mkBlock_append_len t p rest ht, unpackBE32_be32enc p.length hp]
  rw [mkBlock_append_take4 t p rest ht]
  simp only [hne, if_false]
  rw [mkBlock_append_takeAll t p rest ht, mkBlock_append_rest t p rest ht]
  cases replaceLoop old new rest with
  | none => rfl
  | some r => cases r; rfl

theorem replaceLoop_track (old new : Str) (e : TrackEntry) (rest : Bytes)
    (he : WfEntry e) :
    replaceLoop old new (serItem (.track e) ++ rest) =
      (replaceLoop old new rest).map
        (fun r => (serItem (.track (replaceEntry old new e)) ++ r.1,
          entryMatches old e || r.2)) := by
  have hlen : (serSubs (entryChildren e)).length < 4294967296 := he.2.2.2.2
  rw [serItem, replaceLoop]
  rw [dif_neg (mkBlock_append_ne_nil otrkBytes (serSubs (entryChildren e)) rest rfl)]
  rw [mkBlock_append_len otrkBytes (serSubs (entryChildren e)) rest rfl,
    unpackBE32_be32enc (serSubs (entryChildren e)).length hlen]
  rw [mkBlock_append_take4 otrkBytes (serSubs (entryChildren e)) rest rfl]
  have hot : asciiIgnore otrkBytes = otrkStr := by decide
  simp only [hot, if_true]
  rw [mkBlock_append_payload otrkBytes (serSubs (entryChildren e)) rest rfl]
  rw [mkBlock_append_takeAll otrkBytes (serSubs (entryChildren e)) rest rfl,
    mkBlock_append_rest otrkBytes (serSubs (entryChildren e)) rest rfl]
  rw [replaceOtrk_serSubs old new e he]
  by_cases hm : entryMatches old e = true
  · simp only [hm, if_true]
    cases replaceLoop old new rest with
    | none => rfl
    | some r =>
      cases r
      simp [serItem, mkBlock, hm]
  · have hm' : entryMatches old e = false := by
      cases hmv : entryMatches old e
      · rfl
      · exact absurd hmv hm
    simp only [hm', if_false]
    have hre : replaceEntry old new e = e := by
      unfold replaceEntry
      unfold entryMatches at hm'
      simp only [decide_eq_false_iff_not] at hm'
      simp [hm']
    cases replaceLoop old new rest with
    | none => rfl
    | some r =>
      cases r
      simp [serItem, hre]

theorem replaceLoop_serCrate_append (old new : Str) (items : List CrateItem)
    (tailB : Bytes) (h : WfCrate items) :
    replaceLoop old new (serCrate items ++ tailB) =
      (replaceLoop old new tailB).map
        (fun r => (serCrate (items.map (replaceItemSpec old new)) ++ r.1,
          crateMatches old items || r.2)) := by
  induction items with
  | nil =>
    simp only [serCrate, List.map_nil, List.flatten_nil, List.nil_append,
      crateMatches, List.any_nil, Bool.false_or]
    cases replaceLoop old new tailB with
    | none => rfl
    | some r => cases r; rfl
  | cons i is ih =>
    have hi : WfItem i := h i (by simp)
    have his : WfCrate is := fun x hx => h x (by simp [hx])
    rw [serCrate_cons, List.append_assoc]
    cases i with
    | other t p =>
      rw [show serItem (.other t p) = mkBlock t p from rfl]
      rw [replaceLoop_other old new t p _ hi.1 hi.2.2 hi.2.1, ih his]
      cases replaceLoop old new tailB with
      | none => rfl
      | some r =>
        cases r
        simp [serCrate, crateMatches, itemMatches, replaceItemSpec, serItem, mkBlock]
    | track e =>
      rw [replaceLoop_track old new e _ hi, ih his]
      cases replaceLoop old new tailB with
      | none => rfl
      | some r =>
        cases r
        simp [serCrate, crateMatches, itemMatches, replaceItemSpec, Bool.or_assoc]

/-- The full characterization of `replace_track_path` on a well-formed
crate: the answer is whether some entry matched, and the file is rewritten
to the entry-wise replacement exactly when one did. -/
theorem replace_track_path_serCrate (old new : Str) (items : List CrateItem)
    (h : WfCrate items) :
    replace_track_path (serCrate items) old new =
      (crateMatches old items,
        if crateMatches old items then
          serCrate (items.map (replaceItemSpec old new))
        else serCrate items) := by
  have h0 := replaceLoop_serCrate_append old new items [] h
  rw [List.append_nil, replaceLoop_nil] at h0
  simp only [Option.map_some'] at h0
  unfold replace_track_path
  rw [h0]
  cases hm : crateMatches old items with
  | true => simp
  | false => simp

theorem crateMatches_false_of_nomatch (old : Str) (items : List CrateItem)
    (h : ∀ p ∈ pathsOf items, lstripSlash p ≠ lstripSlash old) :
    crateMatches old items = false := by
  induction items with
  | nil => rfl
  | cons i is ih =>
    have his : ∀ p ∈ pathsOf is, lstripSlash p ≠ lstripSlash old := by
      intro p hp
      apply h
      cases i <;> simp [pathsOf] at * <;> tauto
    unfold crateMatches
    rw [List.any_cons]
    have hi : itemMatches old i = false := by
      cases i with
      | other t p => rfl
      | track e =>
        have hep : e.path ∈ pathsOf (CrateItem.track e :: is) := by simp [pathsOf]
        have := h e.path hep
        simp [itemMatches, entryMatches, this]
    rw [hi]
    unfold crateMatches at ih
    rw [ih his]
    rfl

theorem mapSpec_id_of_nomatch (old new : Str) (items : List CrateItem)
    (h : ∀ p ∈ pathsOf items, lstripSlash p ≠ lstripSlash old) :
    items.map (replaceItemSpec old new) = items := by
  induction items with
  | nil => rfl
  | cons i is ih =>
    have his : ∀ p ∈ pathsOf is, lstripSlash p ≠ lstripSlash old := by
      intro p hp
      apply h
      cases i <;> simp [pathsOf] at * <;> tauto
    rw [List.map_cons, ih his]
    congr 1
    cases i with
    | other t p => rfl
    | track e =>
      have hep : e.path ∈ pathsOf (CrateItem.track e :: is) := by simp [pathsOf]
      have hne := h e.path hep
      simp [replaceItemSpec, replaceEntry, hne]

theorem serCrate_append (xs ys : List CrateItem) :
    serCrate (xs ++ ys) = serCrate xs ++ serCrate ys := by
  simp [serCrate]

theorem serItem_track_length (e : TrackEntry) :
    (serItem (.track e)).length =
      16 + (serSubs e.pre).length + (utf16beEncode e.path).length +
        (serSubs e.post).length := by
  have hch : serSubs (entryChildren e) =
      serSubs e.pre ++ (mkBlock ptrkBytes (utf16beEncode e.path) ++ serSubs e.post) := by
    unfold entryChildren
    rw [show e.pre ++ ptrkBlock e.path :: e.post =
      e.pre ++ ([ptrkBlock e.path] ++ e.post) from by simp]
    rw [show serSubs (e.pre ++ ([ptrkBlock e.path] ++ e.post)) =
      serSubs e.pre ++ (serSubs [ptrkBlock e.path] ++ serSubs e.post) from by
        simp [serSubs]]
    simp [serSubs, serSub, ptrkBlock]
  rw [show serItem (.track e) = mkBlock otrkBytes (serSubs (entryChildren e)) from rfl]
  rw [mkBlock_length otrkBytes _ rfl, hch]
  simp [mkBlock, be32enc, ptrkBytes]
  omega

/-!
## Claim theorems
-/

/-- C2 (code_bug evidence): the crate codec class defines no append
operation. `crateHandlerMethods` lists every attribute `class CrateHandler`
defines (crate_handler.py lines 5-149); `add_track_to_crate`, the append
method the recovery pipeline calls (sync_engine.py lines 494 and 614), is
not among them, so those calls raise AttributeError. -/
theorem c2_append_method_missing : "add_track_to_crate" ∉ crateHandlerMethods := by
  decide

/-- The ID3 demo file of claim C1: one Serato GEOB frame. -/
def c1SourceFile : List GeobFrame := [⟨strOf "Serato Markers2", [1, 2, 3]⟩]

/-- C1 (code_bug evidence): the ID3 → ID3 marker round trip is not
byte-identical. Extraction prepends the GEOB wrapper header to the frame
payload (metadata_handler.py line 31-32); ID3 injection stores the wrapped
value back as the GEOB frame payload (lines 215-220); a second extraction
therefore reports the wrapper twice, so the re-extracted value differs from
the first extraction's value by a nonempty prefix. -/
theorem c1_id3_roundtrip_bug :
    dictGet (extract_serato_markers_id3 c1SourceFile) (strOf "Serato Markers2")
      = some (wrapperBytes (strOf "Serato Markers2") ++ [1, 2, 3]) ∧
    dictGet (extract_serato_markers_id3
        (inject_serato_markers_id3 (extract_serato_markers_id3 c1SourceFile)
          c1SourceFile))
        (strOf "Serato Markers2")
      = some (wrapperBytes (strOf "Serato Markers2") ++
          (wrapperBytes (strOf "Serato Markers2") ++ [1, 2, 3])) ∧
    wrapperBytes (strOf "Serato Markers2") ++ [1, 2, 3]
      ≠ wrapperBytes (strOf "Serato Markers2") ++
          (wrapperBytes (strOf "Serato Markers2") ++ [1, 2, 3]) := by
  refine ⟨by decide, by decide, by decide⟩

/-- C6: `ids_to_add` (sync_engine.py line 175) holds only mapped ids absent
from the playlist set fetched at the start of the pass, and
`add_tracks_to_playlist` (tidal_manager.py lines 274-306) independently
filters its request against the freshly fetched current membership, so an
id present in the playlist is never passed to `playlist.add`. -/
theorem c6_no_duplicate_adds (found fetched current : List String) (tid : String) :
    (∀ j ∈ sync_ids_to_add found fetched, j ∈ found ∧ j ∉ fetched) ∧
    (tid ∈ current → tid ∉ add_tracks_to_playlist current (sync_ids_to_add found fetched)) := by
  constructor
  · intro j hj
    unfold sync_ids_to_add at hj
    rw [List.mem_filter] at hj
    refine ⟨hj.1, ?_⟩
    have h2 := hj.2
    simp [List.contains] at h2
    exact h2
  · intro hcur hmem
    unfold add_tracks_to_playlist at hmem
    rw [List.mem_filter] at hmem
    have h2 := hmem.2
    simp [List.contains] at h2
    exact h2 hcur

/-- C6 witness. -/
theorem c6_no_duplicate_adds_witness :
    ("9" : String) ∈ ["9"] ∧
    "9" ∉ add_tracks_to_playlist ["9"] (sync_ids_to_add ["9", "5"] []) :=
  ⟨by decide, (c6_no_duplicate_adds ["9", "5"] [] ["9"] "9").2 (by decide)⟩

/-- The C7 counterexample environment: the file exists, search succeeds. -/
def c7Env : SyncEnv := ⟨fun _ => true, fun _ => none, fun _ => some "77"⟩

/-- The C7 counterexample store: a cached mapping with a known 320 kbps
bitrate. -/
def c7Db : DB := [(strOf "a.mp3", ⟨some "42", none, some 320, none, stSynced, none⟩)]

/-- The C7 counterexample pass state. -/
def c7St : SyncSt := ⟨c7Db, [], [], []⟩

/-- C7 counterexample: with a configured ceiling of 0, a track whose known
bitrate (320) exceeds the ceiling is still processed — its id lands in
`found_on_tidal` and in `ids_to_add` — because the guard at sync_engine.py
line 118 tests `max_bitrate and bitrate and ...` and the Python int 0 is
falsy, disabling the filter. -/
theorem c7_counterexample :
    ((lookupTrack c7Db (lstripSlash (strOf "/a.mp3"))).bind TrackRow.bitrate
      = some 320) ∧
    320 > 0 ∧
    (syncProcessTrack c7Env (some 0) false c7St (strOf "/a.mp3")).found = ["42"] ∧
    sync_ids_to_add
      (syncProcessTrack c7Env (some 0) false c7St (strOf "/a.mp3")).found []
      = ["42"] := by
  refine ⟨by decide, by decide, by decide, by decide⟩

/-- C7 (amended: positive ceiling): when the ceiling is nonzero and the
track's resolved bitrate (cached, or probed when the file exists) exceeds
it, the per-track loop body leaves the pass state untouched apart from the
bitrate-caching upsert — the id is not appended to `found_on_tidal` and no
`update_track_status` call is issued for the track. -/
theorem c7_bitrate_filter (env : SyncEnv) (m : Nat) (force : Bool) (st : SyncSt)
    (local_path : Str) (b : Nat) (hm : 0 < m)
    (hb : (probeStep env st.db local_path).2 = some b) (hgt : m < b) :
    syncProcessTrack env (some m) force st local_path =
      { st with db := (probeStep env st.db local_path).1 } := by
  have hfil : bitrateFilterHit (some m) (probeStep env st.db local_path).2 = true := by
    rw [hb]
    unfold bitrateFilterHit
    simp only [Bool.and_eq_true, decide_eq_true_eq, gt_iff_lt]
    refine ⟨⟨by omega, by omega⟩, hgt⟩
  unfold syncProcessTrack
  simp [hfil]

/-- C7 witness for the amended theorem. -/
theorem c7_bitrate_filter_witness :
    syncProcessTrack c7Env (some 300) false c7St (strOf "/a.mp3") =
      { c7St with db := (probeStep c7Env c7St.db (strOf "/a.mp3")).1 } :=
  c7_bitrate_filter c7Env 300 false c7St (strOf "/a.mp3") 320 (by decide)
    (by decide) (by decide)

theorem lookupTrack_map_merge (db : DB) (path : Str) (f : TrackRow → TrackRow) :
    lookupTrack
      (db.map (fun pr => if pr.1 = path then (pr.1, f pr.2) else pr)) path =
      (lookupTrack db path).map f := by
  induction db with
  | nil => rfl
  | cons pr rest ih =>
    rcases pr with ⟨p, r⟩
    by_cases hp : p = path
    · subst hp
      rw [List.map_cons]
      rw [if_pos (show (p, r).1 = p from rfl)]
      rw [lookupTrack, if_pos (show ((p, r).1, f (p, r).2).1 = p from rfl)]
      rw [lookupTrack, if_pos rfl]
      rfl
    · rw [List.map_cons]
      rw [if_neg (show ¬ (p, r).1 = path from hp)]
      rw [lookupTrack, if_neg (show ¬ (p, r).1 = path from hp)]
      rw [lookupTrack, if_neg hp]
      exact ih

theorem lookupTrack_append_absent (db : DB) (path : Str) (row : TrackRow)
    (h : lookupTrack db path = none) :
    lookupTrack (db ++ [(path, row)]) path = some row := by
  induction db with
  | nil => simp [lookupTrack]
  | cons pr rest ih =>
    by_cases hp : pr.1 = path
    · rw [lookupTrack] at h
      simp [hp] at h
    · rw [lookupTrack] at h
      simp only [hp, if_false] at h
      simp [lookupTrack, hp, ih h]

/-- The merged row the upsert's ON CONFLICT clause produces. -/
def mergedRow (old : TrackRow) (tid isrc : Option String) (br : Option Nat)
    (dn : Option String) : TrackRow :=
  { tidalId := tid
    isrc := isrc
    bitrate := match br with | some b => some b | none => old.bitrate
    displayName := match dn with | some d => some d | none => old.displayName
    status := old.status
    downloadedPath := old.downloadedPath }

theorem upsert_track_conflict (db : DB) (path : Str) (tid isrc : Option String)
    (br : Option Nat) (dn : Option String) (old : TrackRow)
    (h : lookupTrack db path = some old) :
    lookupTrack (upsert_track db path tid isrc br dn) path =
      some (mergedRow old tid isrc br dn) := by
  have hmap := lookupTrack_map_merge db path
    (fun r => mergedRow r tid isrc br dn)
  unfold upsert_track
  rw [h]
  show lookupTrack
      (db.map fun pr =>
        if pr.1 = path then (pr.1, mergedRow pr.2 tid isrc br dn) else pr) path =
    some (mergedRow old tid isrc br dn)
  rw [hmap, h]
  rfl

/-- C8: `upsert_track` is insert-or-merge on the unique local-path key
(db_manager.py lines 86-100). On conflict, `tidal_track_id` and `isrc` are
overwritten by the supplied values while `bitrate` and `display_name` are
COALESCEd — a null argument keeps the stored value, so a known bitrate or
display name is never nulled out; on insert the row takes the supplied
values and the status column default `synced`. -/
theorem c8_upsert_merge (db : DB) (path : Str) (tid isrc : Option String)
    (br : Option Nat) (dn : Option String) :
    (∀ old, lookupTrack db path = some old →
      lookupTrack (upsert_track db path tid isrc br dn) path =
        some (mergedRow old tid isrc br dn) ∧
      (mergedRow old tid isrc br dn).tidalId = tid ∧
      (mergedRow old tid isrc br dn).isrc = isrc ∧
      (br = none → (mergedRow old tid isrc br dn).bitrate = old.bitrate) ∧
      (dn = none → (mergedRow old tid isrc br dn).displayName = old.displayName) ∧
      (old.bitrate ≠ none → (mergedRow old tid isrc br dn).bitrate ≠ none) ∧
      (old.displayName ≠ none → (mergedRow old tid isrc br dn).displayName ≠ none)) ∧
    (lookupTrack db path = none →
      lookupTrack (upsert_track db path tid isrc br dn) path =
        some { tidalId := tid, isrc := isrc, bitrate := br, displayName := dn,
               status := stSynced, downloadedPath := none }) := by
  constructor
  · intro old h
    refine ⟨upsert_track_conflict db path tid isrc br dn old h, rfl, rfl, ?_, ?_, ?_, ?_⟩
    · intro hbr; simp [mergedRow, hbr]
    · intro hdn; simp [mergedRow, hdn]
    · intro hold
      cases br with
      | none => simpa [mergedRow] using hold
      | some b => simp [mergedRow]
    · intro hold
      cases dn with
      | none => simpa [mergedRow] using hold
      | some d => simp [mergedRow]
  · intro h
    unfold upsert_track
    rw [h]
    exact lookupTrack_append_absent db path _ h

/-- C8 witness: a conflict upsert with null bitrate keeps the stored 320. -/
theorem c8_upsert_merge_witness :
    lookupTrack
      (upsert_track c7Db (strOf "a.mp3") (some "43") none none none)
      (strOf "a.mp3") =
      some (mergedRow ⟨some "42", none, some 320, none, stSynced, none⟩
        (some "43") none none none) :=
  ((c8_upsert_merge c7Db (strOf "a.mp3") (some "43") none none none).1
    ⟨some "42", none, some 320, none, stSynced, none⟩ (by decide)).1

/-- C10 (implicit): on conflict the remote id and isrc columns take the
supplied values even when those are null — a stored non-null remote id is
nulled out by an upsert that passes `tidal_id=None` (db_manager.py lines
93-95 have no COALESCE on these two columns). -/
theorem c10_upsert_nulls_remote_id (db : DB) (path : Str) (old : TrackRow)
    (t : String) (br : Option Nat) (dn : Option String)
    (h : lookupTrack db path = some old) (ht : old.tidalId = some t) :
    ((lookupTrack (upsert_track db path none none br dn) path).bind
        TrackRow.tidalId = none) ∧
    ((lookupTrack (upsert_track db path none none br dn) path).bind
        TrackRow.isrc = none) ∧
    old.tidalId ≠ none := by
  have hc := upsert_track_conflict db path none none br dn old h
  rw [hc]
  refine ⟨rfl, rfl, ?_⟩
  rw [ht]
  simp

/-- C10 witness: the stored remote id 42 is nulled by an upsert with a
null remote id. -/
theorem c10_upsert_nulls_remote_id_witness :
    ((lookupTrack
        (upsert_track c7Db (strOf "a.mp3") none none (some 900) none)
        (strOf "a.mp3")).bind TrackRow.tidalId = none) ∧
    ((lookupTrack
        (upsert_track c7Db (strOf "a.mp3") none none (some 900) none)
        (strOf "a.mp3")).bind TrackRow.isrc = none) ∧
    (⟨some "42", none, some 320, none, stSynced, none⟩ : TrackRow).tidalId ≠ none :=
  c10_upsert_nulls_remote_id c7Db (strOf "a.mp3")
    ⟨some "42", none, some 320, none, stSynced, none⟩ "42" (some 900) none
    (by decide) (by decide)

/-- C5: on a well-formed crate stream none of whose parsed entries matches
the (normalized) old path, `replace_track_path` answers `false` and the
file bytes are exactly the input bytes (crate_handler.py lines 47-124: the
file is only rewritten when a path matched). -/
theorem c5_replace_nomatch (items : List CrateItem) (old new : Str)
    (h : WfCrate items)
    (hnm : ∀ p ∈ pathsOf items, lstripSlash p ≠ lstripSlash old) :
    replace_track_path (serCrate items) old new = (false, serCrate items) := by
  rw [replace_track_path_serCrate old new items h,
    crateMatches_false_of_nomatch old items hnm]
  simp

/-- The C5/C4 demo crate: a version block and one track entry. -/
def c5Demo : List CrateItem :=
  [.other (strOf "vrsn") (strOf "81.0"), .track ⟨[], strOf "Music/a.mp3", []⟩]

/-- C5 witness. -/
theorem c5_replace_nomatch_witness :
    replace_track_path (serCrate c5Demo) (strOf "Music/zzz.mp3") (strOf "x") =
      (false, serCrate c5Demo) :=
  c5_replace_nomatch c5Demo (strOf "Music/zzz.mp3") (strOf "x")
    (by decide) (by decide)

/-- The C4 counterexample crate: a single entry whose stored path is `a`. -/
def c4Items : List CrateItem := [.track ⟨[], [97], []⟩]

/-- C4 counterexample: the crate stores path `a` ([97]); the old path is
given as `/a` ([47, 97]) and matches after separator stripping; the new
path `bb` ([98, 98]) replaces it. The UTF-16BE encodings of the two given
paths have equal length (4 bytes each), so the claim predicts an unchanged
total length — but the output is 2 bytes longer, because the rewrite
replaces the stored 2-byte payload of `a`, not 4 bytes of `/a`. -/
theorem c4_counterexample :
    (parseLoop (serCrate c4Items)).1 = [[97]] ∧
    lstripSlash [97] = lstripSlash [47, 97] ∧
    (replace_track_path (serCrate c4Items) [47, 97] [98, 98]).1 = true ∧
    (replace_track_path (serCrate c4Items) [47, 97] [98, 98]).2.length
      = (serCrate c4Items).length + 2 ∧
    (utf16beEncode [98, 98]).length = (utf16beEncode [47, 97]).length := by
  have h1 := parseLoop_serCrate c4Items (by decide)
  have h2 := replace_track_path_serCrate [47, 97] [98, 98] c4Items (by decide)
  refine ⟨?_, by decide, ?_, ?_, by decide⟩
  · rw [h1]; decide
  · rw [h2]; decide
  · rw [h2]; decide

theorem pathsOf_append (xs ys : List CrateItem) :
    pathsOf (xs ++ ys) = pathsOf xs ++ pathsOf ys := by
  simp [pathsOf]

/-- C4 (amended: the length delta is that of the separator-stripped paths'
UTF-16BE encodings, the stored payload being the stored path's exact
encoding): rewriting the single matching entry answers `true`, a re-parse
shows the new (stripped) path in place and every other entry unchanged,
and the total length changes by the byte-length delta of the stripped
paths' UTF-16BE encodings. -/
theorem c4_replace_roundtrip (A B : List CrateItem) (e : TrackEntry)
    (old new : Str)
    (hwf : WfCrate (A ++ CrateItem.track e :: B))
    (hm : lstripSlash e.path = lstripSlash old)
    (hA : ∀ p ∈ pathsOf A, lstripSlash p ≠ lstripSlash old)
    (hB : ∀ p ∈ pathsOf B, lstripSlash p ≠ lstripSlash old)
    (hnew : ValidPath (lstripSlash new))
    (hnlen : (utf16beEncode (lstripSlash new)).length < 4294967296)
    (hclen : (serSubs (entryChildren ⟨e.pre, lstripSlash new, e.post⟩)).length
      < 4294967296) :
    (replace_track_path (serCrate (A ++ CrateItem.track e :: B)) old new).1
      = true ∧
    (parseLoop
      (replace_track_path (serCrate (A ++ CrateItem.track e :: B)) old new).2).1
      = pathsOf A ++ lstripSlash new :: pathsOf B ∧
    (replace_track_path (serCrate (A ++ CrateItem.track e :: B)) old new).2.length
        + (utf16beEncode (lstripSlash old)).length
      = (serCrate (A ++ CrateItem.track e :: B)).length
        + (utf16beEncode (lstripSlash new)).length := by
  have he : WfEntry e := hwf (.track e) (by simp)
  have hApre : WfCrate A := fun i hi => hwf i (by simp [hi])
  have hBpre : WfCrate B := fun i hi => hwf i (by simp [hi])
  have hmatch : crateMatches old (A ++ CrateItem.track e :: B) = true := by
    unfold crateMatches
    rw [List.any_append]
    have : itemMatches old (CrateItem.track e) = true := by
      simp [itemMatches, entryMatches, hm]
    simp [this]
  have hAeq : A.map (replaceItemSpec old new) = A := mapSpec_id_of_nomatch old new A hA
  have hBeq : B.map (replaceItemSpec old new) = B := mapSpec_id_of_nomatch old new B hB
  have hmap : (A ++ CrateItem.track e :: B).map (replaceItemSpec old new) =
      A ++ CrateItem.track ⟨e.pre, lstripSlash new, e.post⟩ :: B := by
    rw [List.map_append, hAeq, List.map_cons, hBeq]
    congr 2
    simp [replaceItemSpec, replaceEntry, hm]
  have he' : WfEntry ⟨e.pre, lstripSlash new, e.post⟩ :=
    ⟨he.1, he.2.1, hnew, hnlen, hclen⟩
  have hwf' : WfCrate (A ++ CrateItem.track ⟨e.pre, lstripSlash new, e.post⟩ :: B) := by
    intro i hi
    rw [List.mem_append, List.mem_cons] at hi
    rcases hi with hi | hi | hi
    · exact hApre i hi
    · rw [hi]; exact he'
    · exact hBpre i hi
  have hchar := replace_track_path_serCrate old new (A ++ CrateItem.track e :: B) hwf
  rw [hmatch] at hchar
  simp only [if_true] at hchar
  rw [hmap] at hchar
  have hpath_eq : e.path = lstripSlash old := by
    rw [← hm, lstripSlash_of_validPath e.path he.2.2.1]
  refine ⟨by rw [hchar], ?_, ?_⟩
  · rw [hchar]
    show (parseLoop (serCrate (A ++ CrateItem.track ⟨e.pre, lstripSlash new, e.post⟩ :: B))).1
      = pathsOf A ++ lstripSlash new :: pathsOf B
    rw [parseLoop_serCrate _ hwf']
    rw [show pathsOf (A ++ CrateItem.track ⟨e.pre, lstripSlash new, e.post⟩ :: B) =
      pathsOf A ++ pathsOf (CrateItem.track ⟨e.pre, lstripSlash new, e.post⟩ :: B)
      from pathsOf_append _ _]
    simp [pathsOf]
  · rw [hchar]
    show (serCrate (A ++ CrateItem.track ⟨e.pre, lstripSlash new, e.post⟩ :: B)).length
        + (utf16beEncode (lstripSlash old)).length
      = (serCrate (A ++ CrateItem.track e :: B)).length
        + (utf16beEncode (lstripSlash new)).length
    rw [serCrate_append, serCrate_append, serCrate_cons, serCrate_cons]
    have hl1 := serItem_track_length e
    have hl2 := serItem_track_length ⟨e.pre, lstripSlash new, e.post⟩
    simp only [List.length_append]
    rw [hl1, hl2, ← hpath_eq]
    dsimp only
    omega

/-- C4 witness for the amended theorem. -/
theorem c4_replace_roundtrip_witness :
    (replace_track_path
      (serCrate ([CrateItem.other (strOf "vrsn") (strOf "81.0")] ++
        CrateItem.track ⟨[], strOf "Music/a.mp3", []⟩ :: []))
      (strOf "/Music/a.mp3") (strOf "/Music/a.flac")).1 = true ∧
    (parseLoop
      (replace_track_path
        (serCrate ([CrateItem.other (strOf "vrsn") (strOf "81.0")] ++
          CrateItem.track ⟨[], strOf "Music/a.mp3", []⟩ :: []))
        (strOf "/Music/a.mp3") (strOf "/Music/a.flac")).2).1
      = pathsOf [CrateItem.other (strOf "vrsn") (strOf "81.0")] ++
          lstripSlash (strOf "/Music/a.flac") :: pathsOf [] ∧
    (replace_track_path
      (serCrate ([CrateItem.other (strOf "vrsn") (strOf "81.0")] ++
        CrateItem.track ⟨[], strOf "Music/a.mp3", []⟩ :: []))
      (strOf "/Music/a.mp3") (strOf "/Music/a.flac")).2.length
        + (utf16beEncode (lstripSlash (strOf "/Music/a.mp3"))).length
      = (serCrate ([CrateItem.other (strOf "vrsn") (strOf "81.0")] ++
          CrateItem.track ⟨[], strOf "Music/a.mp3", []⟩ :: [])).length
        + (utf16beEncode (lstripSlash (strOf "/Music/a.flac"))).length :=
  c4_replace_roundtrip [CrateItem.other (strOf "vrsn") (strOf "81.0")] []
    ⟨[], strOf "Music/a.mp3", []⟩ (strOf "/Music/a.mp3") (strOf "/Music/a.flac")
    (by decide) (by decide) (by decide) (by decide) (by decide) (by decide)
    (by decide)

/-- C9: crate parsing raises "not found" exactly when the file is missing
(crate_handler.py lines 12-13); for an existing file of arbitrary bytes it
returns normally (the whole scan is wrapped in `try/except`, lines 16-43),
and a well-formed prefix of entries is decoded in order whatever malformed
tail follows it. -/
theorem c9_parse_error_handling :
    (∀ file : Option Bytes, get_tracks file = Except.error () ↔ file = none) ∧
    (∀ content : Bytes, get_tracks (some content) = Except.ok (parseLoop content).1) ∧
    (∀ (items : List CrateItem) (tailB : Bytes), WfCrate items →
      (parseLoop (serCrate items ++ tailB)).1 =
        pathsOf items ++ (parseLoop tailB).1) := by
  refine ⟨?_, fun _ => rfl, ?_⟩
  · intro file
    cases file with
    | none => simp [get_tracks]
    | some c => simp [get_tracks]
  · intro items tailB h
    rw [parseLoop_serCrate_append items tailB h]

/-- C9 witness: the demo crate followed by a 2-byte truncated block parses
to exactly the demo's entries. -/
theorem c9_parse_error_handling_witness :
    WfCrate c5Demo ∧
    (parseLoop (serCrate c5Demo ++ [255, 1])).1 =
      pathsOf c5Demo ++ (parseLoop [255, 1]).1 :=
  ⟨by decide, c9_parse_error_handling.2.2 c5Demo [255, 1] (by decide)⟩

/-- The C3 scenario crate: one entry holding the original path. -/
def c3Items : List CrateItem := [.track ⟨[], strOf "m/a.mp3", []⟩]

/-- The C3 scenario filesystem: the original file, a pre-existing file at
the upgrade target, and the downloaded file in the staging directory. -/
def c3Fs : FSState := ⟨[strOf "/m/a.mp3", strOf "/m/a.flac", strOf "/dl/x.flac"]⟩

/-- The C3 scenario store: the original path is pending download. -/
def c3Db : DB :=
  [(strOf "m/a.mp3", ⟨some "7", none, none, none, stPendingDownload, none⟩)]

/-- The C3 recovery outcome. -/
def c3Out : RecSt :=
  recoveryStep ⟨c3Fs, c3Db, [serCrate c3Items]⟩ "7" (strOf "/m/a.mp3")
    (strOf "/dl/x.flac") (strOf "/m/a.flac")

/-- C3 (code_bug evidence): in the upgrade recovery of `/m/a.mp3` to
`/m/a.flac`, the claim's first half happens — the pre-existing target and
the original are renamed with the `BACKUP-` prefix before the download is
moved in, and the crate is rewritten to the new path — but then line 512
of sync_engine.py applies `len()` to the integer `update_track_path_globally`
returns, the TypeError reaches the generic handler at lines 535-537, and
the old path's mapping ends `failed` instead of `pending_cleanup` while no
mapping for the new path is ever created. -/
theorem c3_recovery_len_bug :
    c3Out.fs.files =
      [strOf "/m/BACKUP-a.mp3", strOf "/m/BACKUP-a.flac", strOf "/m/a.flac"] ∧
    c3Out.crates =
      [(replace_track_path (serCrate c3Items) (strOf "/m/a.mp3")
        (strOf "/m/a.flac")).2] ∧
    (parseLoop (replace_track_path (serCrate c3Items) (strOf "/m/a.mp3")
        (strOf "/m/a.flac")).2).1 = [strOf "m/a.flac"] ∧
    (lookupTrack c3Out.db (strOf "m/a.mp3")).map TrackRow.status = some stFailed ∧
    lookupTrack c3Out.db (strOf "m/a.flac") = none := by
  refine ⟨by decide, rfl, ?_, by decide, by decide⟩
  have h2 := replace_track_path_serCrate (strOf "/m/a.mp3") (strOf "/m/a.flac")
    c3Items (by decide)
  rw [h2]
  have hcm : crateMatches (strOf "/m/a.mp3") c3Items = true := by decide
  rw [hcm]
  simp only [if_true]
  rw [parseLoop_serCrate _ (by decide)]
  decide
